import Mathlib

/-!
# Verification of the LuminAIR Cairo lowering pass and CairoAdd operator

Shallow embedding of `src/prim.rs` (the `CairoAdd` operator and the
`PrimitiveCompiler` lowering pass) together with the broadcasting /
stride / expansion engine it calls.  The engine (`determine_broadcast_shape`,
`compute_strides`, `expand_data`, `serialize_inputs_binary_op`,
`COMPILED_CAIRO_PATH`) lives in crate modules that are not part of the
sources at hand, so those definitions are modelled from the specification.
Rust panics are modelled by the `Outcome` type; the external Cairo runner
and the filesystem are modelled as function parameters.
-/

/-- Paths are modelled as strings. -/
abbrev PathBuf := String

/-- `PathBuf::join` for the only use in the source: appending one component. -/
def PathBuf.join (p : PathBuf) (child : String) : PathBuf :=
  p ++ "/" ++ child

/-- Structured content of a Rust `panic!` in `prim.rs`. -/
inductive PanicMsg where
  /-- "CairoAdd operator requires exactly two input tensors." -/
  | arity
  /-- "Tensor data is not Vec<f32>" (the `get_vec` downcast `expect`). -/
  | notF32
  /-- "Broadcasting error: {e}"; the broadcast error names both shapes. -/
  | broadcast (shape_a shape_b : List Nat)
  /-- "Error executing Cairo: {e}" with the runner's own diagnostic. -/
  | cairoError (msg : String)
  /-- "Sierra file does not exist: {path}" in `CairoAdd::new`. -/
  | missingSierra (path : PathBuf)
  /-- `unimplemented!()` in a recognized-but-unsupported branch of `compile`. -/
  | unimplemented
deriving DecidableEq

/-- Result of running a piece of Rust code that can `panic!`. -/
inductive Outcome (α : Type) where
  | ok (val : α)
  | panic (msg : PanicMsg)
deriving DecidableEq

/-- Modelled from the spec: the broadcasting error "naming the incompatible
shapes" produced by `determine_broadcast_shape` (module `precomputing`,
not among the sources). -/
structure BroadcastError where
  shape_a : List Nat
  shape_b : List Nat
deriving DecidableEq

/-- Modelled from the spec: left-padding of the shorter shape's "missing
leading dimensions with size 1" (§4.1). -/
def padShape (s : List Nat) (n : Nat) : List Nat :=
  List.replicate (n - s.length) 1 ++ s

/-- Modelled from the spec (§4.1): the per-dimension broadcasting rule.
If `da == db` the result dimension is `da`; if exactly one side is 1 the
result is `max da db`; otherwise the pair is incompatible. -/
def broadcastDim (da db : Nat) : Option Nat :=
  if da = db then some da
  else if da = 1 ∨ db = 1 then some (max da db)
  else none

/-- `broadcastDim` applied pairwise along two aligned shapes; `none` as
soon as some pair is incompatible. -/
def broadcastPairs : List (Nat × Nat) → Option (List Nat)
  | [] => some []
  | p :: rest =>
    match broadcastDim p.1 p.2, broadcastPairs rest with
    | some d, some ds => some (d :: ds)
    | _, _ => none

/-- Modelled from the spec: `determine_broadcast_shape` (module
`precomputing`, not among the sources).  Aligns the two shapes from the
trailing dimension leftward, padding the shorter with size-1 dimensions,
applies `broadcastDim` pairwise, and fails with an error naming the two
incompatible shapes when some pair is incompatible. -/
def determine_broadcast_shape (shape_a shape_b : List Nat) :
    Except BroadcastError (List Nat) :=
  let n := max shape_a.length shape_b.length
  let pa := padShape shape_a n
  let pb := padShape shape_b n
  match broadcastPairs (pa.zip pb) with
  | some r => Except.ok r
  | none => Except.error ⟨shape_a, shape_b⟩

/-- Modelled from the spec: `compute_strides` (module `precomputing`, not
among the sources): row-major strides, `stride[i] = product of shape[i+1..]`;
empty shape gives the empty stride vector. -/
def compute_strides : List Nat → List Nat
  | [] => []
  | _ :: rest => rest.prod :: compute_strides rest

/-- Dot product of an index vector with a stride vector (missing entries
contribute nothing). -/
def dot : List Nat → List Nat → Nat
  | a :: as2, b :: bs2 => a * b + dot as2 bs2
  | _, _ => 0

/-- Row-major multi-index of linear position `k` in a shape: the innermost
dimension varies fastest. -/
def unflatten : List Nat → Nat → List Nat
  | [], _ => []
  | _ :: ds, k => (k / ds.prod) :: unflatten ds (k % ds.prod)

/-- `validIdx idx s` : `idx` is a multi-index of shape `s` (same length,
each coordinate below the dimension size). -/
def validIdx : List Nat → List Nat → Bool
  | [], [] => true
  | c :: cs, d :: ds => decide (c < d) && validIdx cs ds
  | _, _ => false

/-- Modelled from the spec (§4.2): the source flat offset for one output
multi-index — right-align the index against `original_shape` (dropping the
leading dimensions absent from the shorter original shape), clamp every
size-1 source dimension to coordinate 0, and dot with `original_strides`. -/
def sourceOffset (idx original_shape original_strides : List Nat) : Nat :=
  let aligned := idx.drop (idx.length - original_shape.length)
  dot (List.zipWith (fun c s => if s = 1 then 0 else c) aligned original_shape)
    original_strides

/-- Modelled from the spec: `expand_data` (module `precomputing`, not among
the sources): a flat sequence of length `product broadcast_shape`, in
row-major iteration order over the broadcast shape, each element read from
the source at the clamped right-aligned offset. -/
def expand_data {α : Type} [Inhabited α] (data : List α)
    (original_shape broadcast_shape original_strides : List Nat) : List α :=
  (List.range broadcast_shape.prod).map
    (fun k =>
      data.getD (sourceOffset (unflatten broadcast_shape k) original_shape
        original_strides) default)

/-- Modelled from the spec: the serialized payload of
`serialize_inputs_binary_op` (module `serialization`, not among the
sources).  The exact byte layout is the external runner's contract; the
payload is modelled as the ordered pair of the two expanded sequences. -/
structure SerializedInputs (F : Type) where
  a : List F
  b : List F
deriving DecidableEq

/-- Modelled from the spec: `serialize_inputs_binary_op` encodes operand A
fully, then operand B fully. -/
def serialize_inputs_binary_op {F : Type} (ea eb : List F) :
    SerializedInputs F :=
  ⟨ea, eb⟩

/-- The shared runner configuration; its fields are opaque to `prim.rs`,
so it is modelled as a single abstract value. -/
structure CairoRunnerConfig where
  settings : Nat
deriving DecidableEq

/-- The `CairoAdd` operator: a compiled-program path and the shared,
read-only runner configuration (`struct CairoAdd` in `prim.rs`). -/
structure CairoAdd where
  sierra_file : PathBuf
  runner_config : CairoRunnerConfig
deriving DecidableEq

/-- `CairoAdd::new` from `prim.rs`: panics when the sierra file does not
exist on the filesystem (modelled by the `fs_exists` predicate), otherwise
stores the path and configuration. -/
def CairoAdd.new (fs_exists : PathBuf → Bool) (sierra_file : PathBuf)
    (runner_config : CairoRunnerConfig) : Outcome CairoAdd :=
  if fs_exists sierra_file then Outcome.ok ⟨sierra_file, runner_config⟩
  else Outcome.panic (.missingSierra sierra_file)

/-- `CairoAdd::process` from `prim.rs`.  An input tensor is a pair of its
storage (`some` data when the storage downcasts to `Vec<f32>`, the element
type left abstract) and its tracked shape.  The external runner is the
function parameter `run`; the second component of the result records the
serialized inputs of every runner invocation made, in order. -/
def CairoAdd.process {F T : Type} [Inhabited F]
    (run : CairoRunnerConfig → PathBuf → SerializedInputs F → Bool →
      Except String T)
    (self : CairoAdd) (tensors : List (Option (List F) × List Nat)) :
    Outcome (List T) × List (SerializedInputs F) :=
  match tensors with
  | [(ta, shape_a), (tb, shape_b)] =>
    match ta with
    | none => (Outcome.panic .notF32, [])
    | some data_a =>
      match tb with
      | none => (Outcome.panic .notF32, [])
      | some data_b =>
        match determine_broadcast_shape shape_a shape_b with
        | Except.error e =>
          (Outcome.panic (.broadcast e.shape_a e.shape_b), [])
        | Except.ok broadcast_shape =>
          let strides_a := compute_strides shape_a
          let strides_b := compute_strides shape_b
          let expanded_a := expand_data data_a shape_a broadcast_shape strides_a
          let expanded_b := expand_data data_b shape_b broadcast_shape strides_b
          let inputs := serialize_inputs_binary_op expanded_a expanded_b
          match run self.runner_config self.sierra_file inputs false with
          | Except.ok result => (Outcome.ok [result], [inputs])
          | Except.error e => (Outcome.panic (.cairoError e), [inputs])
  | _ => (Outcome.panic .arity, [])

/-- Modelled from the spec: the fixed compiled-artifacts base directory
(constant `COMPILED_CAIRO_PATH` of module `constants`, not among the
sources); its concrete value is irrelevant to the pass. -/
def COMPILED_CAIRO_PATH : String := "./compiled_cairo"

/-- The operation kinds `PrimitiveCompiler::compile` dispatches on:
the luminal primitives it recognizes, the already-lowered `CairoAdd`
payload, and arbitrary unrecognized payloads. -/
inductive Op where
  | Log2
  | Exp2
  | Sin
  | Constant
  | Recip
  | Sqrt
  | Add
  | Mul
  | Mod
  | LessThan
  | Contiguous
  | SumReduce (dim : Nat)
  | MaxReduce (dim : Nat)
  | CairoAddOp (c : CairoAdd)
  | Other (tag : String)
deriving DecidableEq

/-- An edge of the luminal graph: endpoints, the input-order key, and the
shape-tracker metadata carried on the edge. -/
structure EdgeData where
  src : Nat
  dst : Nat
  input_order : Nat
  shape : List Nat
deriving DecidableEq

/-- The luminal graph as `compile` sees it: node payloads addressed by
stable node ids, plus the edges with their shape trackers. -/
structure Graph where
  nodes : List (Nat × Op)
  edges : List EdgeData
deriving DecidableEq

/-- The compiler's error type (declared in the crate root, not among the
sources); at least one error value exists. -/
inductive CairoCompilerError where
  | error (msg : String)
deriving DecidableEq

/-- The per-node dispatch of `PrimitiveCompiler::compile`: each
recognized-but-unsupported kind hits `unimplemented!()`; `Add` is swapped
for a freshly constructed `CairoAdd` bound to
`COMPILED_CAIRO_PATH/add.sierra.json`; anything else falls through all the
`is::<T>` tests and is left untouched. -/
def compileNode (fs_exists : PathBuf → Bool)
    (runner_config : CairoRunnerConfig) : Op → Outcome Op
  | .Log2 => Outcome.panic .unimplemented
  | .Exp2 => Outcome.panic .unimplemented
  | .Sin => Outcome.panic .unimplemented
  | .Constant => Outcome.panic .unimplemented
  | .Recip => Outcome.panic .unimplemented
  | .Sqrt => Outcome.panic .unimplemented
  | .Add =>
    let sierra_file := PathBuf.join COMPILED_CAIRO_PATH "add.sierra.json"
    match CairoAdd.new fs_exists sierra_file runner_config with
    | Outcome.ok c => Outcome.ok (.CairoAddOp c)
    | Outcome.panic m => Outcome.panic m
  | .Mul => Outcome.panic .unimplemented
  | .Mod => Outcome.panic .unimplemented
  | .LessThan => Outcome.panic .unimplemented
  | .Contiguous => Outcome.panic .unimplemented
  | .SumReduce _ => Outcome.panic .unimplemented
  | .MaxReduce _ => Outcome.panic .unimplemented
  | .CairoAddOp c => Outcome.ok (.CairoAddOp c)
  | .Other t => Outcome.ok (.Other t)

/-- The loop of `compile` over the node set captured at the start of the
pass, replacing each payload in place and propagating the first panic. -/
def compileNodes (fs_exists : PathBuf → Bool)
    (runner_config : CairoRunnerConfig) :
    List (Nat × Op) → Outcome (List (Nat × Op))
  | [] => Outcome.ok []
  | (i, op) :: rest =>
    match compileNode fs_exists runner_config op with
    | Outcome.panic m => Outcome.panic m
    | Outcome.ok op2 =>
      match compileNodes fs_exists runner_config rest with
      | Outcome.panic m => Outcome.panic m
      | Outcome.ok rest2 => Outcome.ok ((i, op2) :: rest2)

/-- `PrimitiveCompiler` holds the runner configuration shared with every
operator it constructs. -/
structure PrimitiveCompiler where
  runner_config : CairoRunnerConfig
deriving DecidableEq

/-- `PrimitiveCompiler::compile` from `prim.rs`: rewrites the node
payloads (edges are never touched) and, when no branch panicked, returns
`Ok(())` together with the rewritten graph. -/
def PrimitiveCompiler.compile (self : PrimitiveCompiler)
    (fs_exists : PathBuf → Bool) (graph : Graph) :
    Outcome (Except CairoCompilerError Unit × Graph) :=
  match compileNodes fs_exists self.runner_config graph.nodes with
  | Outcome.panic m => Outcome.panic m
  | Outcome.ok nodes2 =>
    Outcome.ok (Except.ok (), { graph with nodes := nodes2 })

/-- The recognized-but-unsupported kinds: every branch of `compile` that
hits `unimplemented!()`. -/
def recognizedUnsupported : Op → Bool
  | .Log2 => true
  | .Exp2 => true
  | .Sin => true
  | .Constant => true
  | .Recip => true
  | .Sqrt => true
  | .Mul => true
  | .Mod => true
  | .LessThan => true
  | .Contiguous => true
  | .SumReduce _ => true
  | .MaxReduce _ => true
  | _ => false

/-- The kinds `compile` recognizes at all (matched by some `is::<T>` or
downcast test): the unsupported ones plus `Add`. -/
def recognizedKind : Op → Bool
  | .CairoAddOp _ => false
  | .Other _ => false
  | _ => true

/-! ## Broadcasting lemmas -/

theorem broadcastDim_compat (da db : Nat) (h : da = db ∨ da = 1 ∨ db = 1) :
    broadcastDim da db = some (max da db) := by
  unfold broadcastDim
  split_ifs with h1 h2
  · rw [h1, Nat.max_self]
  · rfl
  · rcases h with h | h | h
    · exact absurd h h1
    · exact absurd (Or.inl h) h2
    · exact absurd (Or.inr h) h2

theorem broadcastPairs_compat (l : List (Nat × Nat))
    (h : ∀ p ∈ l, p.1 = p.2 ∨ p.1 = 1 ∨ p.2 = 1) :
    broadcastPairs l = some (l.map fun p => max p.1 p.2) := by
  induction l with
  | nil => rfl
  | cons p l ih =>
    have hp := broadcastDim_compat p.1 p.2 (h p (List.mem_cons_self p l))
    have ht := ih (fun q hq => h q (List.mem_cons_of_mem p hq))
    simp [broadcastPairs, hp, ht]

theorem map_zip_max (xs ys : List Nat) :
    ((xs.zip ys).map fun p => max p.1 p.2) = List.zipWith max xs ys := by
  induction xs generalizing ys with
  | nil => simp
  | cons x xs ih => cases ys <;> simp [ih]

theorem padShape_length (s : List Nat) (n : Nat) (h : s.length ≤ n) :
    (padShape s n).length = n := by
  simp [padShape]
  omega

/-- C1: for every pair of shapes whose right-aligned dimension pairs are
each either equal or contain a 1, `determine_broadcast_shape` succeeds and
returns the right-aligned elementwise maximum of the two shapes, padded on
the left with size-1 dimensions so its length is
`max (len shape_a) (len shape_b)`. -/
theorem determine_broadcast_shape_compatible (shape_a shape_b : List Nat)
    (h : ∀ p ∈ (padShape shape_a (max shape_a.length shape_b.length)).zip
          (padShape shape_b (max shape_a.length shape_b.length)),
        p.1 = p.2 ∨ p.1 = 1 ∨ p.2 = 1) :
    ∃ r, determine_broadcast_shape shape_a shape_b = Except.ok r ∧
      r = List.zipWith max
            (padShape shape_a (max shape_a.length shape_b.length))
            (padShape shape_b (max shape_a.length shape_b.length)) ∧
      r.length = max shape_a.length shape_b.length := by
  refine ⟨_, ?_, rfl, ?_⟩
  · simp only [determine_broadcast_shape]
    rw [broadcastPairs_compat _ h, map_zip_max]
  · rw [List.length_zipWith, padShape_length _ _ (Nat.le_max_left _ _),
      padShape_length _ _ (Nat.le_max_right _ _), Nat.min_self]

/-- Witness for C1 at the concrete shapes `[2,1]` and `[3]`. -/
theorem determine_broadcast_shape_compatible_witness :
    ∃ r, determine_broadcast_shape [2, 1] [3] = Except.ok r ∧
      r = List.zipWith max
            (padShape [2, 1] (max ([2, 1] : List Nat).length ([3] : List Nat).length))
            (padShape [3] (max ([2, 1] : List Nat).length ([3] : List Nat).length)) ∧
      r.length = max ([2, 1] : List Nat).length ([3] : List Nat).length :=
  determine_broadcast_shape_compatible [2, 1] [3] (by decide)

/-! ## Expansion lemmas -/

theorem dot_lt_prod (idx : List Nat) (s : List Nat) (h : validIdx idx s = true) :
    dot idx (compute_strides s) < s.prod := by
  induction idx generalizing s with
  | nil =>
    cases s with
    | nil => decide
    | cons d ds => simp [validIdx] at h
  | cons c cs ih =>
    cases s with
    | nil => simp [validIdx] at h
    | cons d ds =>
      simp only [validIdx, Bool.and_eq_true, decide_eq_true_eq] at h
      obtain ⟨hc, hv⟩ := h
      have ht := ih ds hv
      simp only [compute_strides, dot, List.prod_cons]
      calc c * ds.prod + dot cs (compute_strides ds)
          < c * ds.prod + ds.prod := by omega
        _ = (c + 1) * ds.prod := by ring
        _ ≤ d * ds.prod := Nat.mul_le_mul_right _ hc

theorem unflatten_dot (idx : List Nat) (s : List Nat) (h : validIdx idx s = true) :
    unflatten s (dot idx (compute_strides s)) = idx := by
  induction idx generalizing s with
  | nil =>
    cases s with
    | nil => rfl
    | cons d ds => simp [validIdx] at h
  | cons c cs ih =>
    cases s with
    | nil => simp [validIdx] at h
    | cons d ds =>
      simp only [validIdx, Bool.and_eq_true, decide_eq_true_eq] at h
      obtain ⟨hc, hv⟩ := h
      have hr : dot cs (compute_strides ds) < ds.prod := dot_lt_prod cs ds hv
      have hP : 0 < ds.prod := by omega
      simp only [compute_strides, dot, unflatten, List.cons.injEq]
      constructor
      · rw [Nat.mul_comm c ds.prod, Nat.mul_add_div hP,
          Nat.div_eq_of_lt hr, Nat.add_zero]
      · rw [Nat.mul_comm c ds.prod, Nat.mul_add_mod, Nat.mod_eq_of_lt hr]
        exact ih ds hv

theorem expand_data_getD {α : Type} [Inhabited α] (data : List α)
    (original_shape broadcast_shape original_strides idx : List Nat)
    (h : validIdx idx broadcast_shape = true) :
    (expand_data data original_shape broadcast_shape original_strides).getD
        (dot idx (compute_strides broadcast_shape)) default
      = data.getD (sourceOffset idx original_shape original_strides) default := by
  have hlt := dot_lt_prod idx broadcast_shape h
  simp only [expand_data, List.getD_eq_getElem?_getD, List.getElem?_map,
    List.getElem?_range hlt, Option.map_some', Option.getD_some]
  rw [unflatten_dot idx broadcast_shape h]

/-- C2: `expand_data` produces a flat sequence of length
`product broadcast_shape`; the element at the row-major position of any
valid output multi-index is read from the source at the offset obtained by
right-aligning the index, clamping aligned size-1 source dimensions to 0,
dropping dimensions absent from the shorter original shape, and dotting
with `original_strides`; in particular data `[1,2,3]` of shape `[1,3]`
expanded to `[2,3]` yields `[1,2,3,1,2,3]`, and `[1,2,3]` of shape `[3,1]`
expanded to `[3,2]` yields `[1,1,2,2,3,3]`. -/
theorem expand_data_spec {α : Type} [Inhabited α] (data : List α)
    (original_shape broadcast_shape original_strides idx : List Nat)
    (h : validIdx idx broadcast_shape = true) :
    (expand_data data original_shape broadcast_shape original_strides).length
        = broadcast_shape.prod ∧
    (expand_data data original_shape broadcast_shape original_strides).getD
        (dot idx (compute_strides broadcast_shape)) default
      = data.getD (sourceOffset idx original_shape original_strides) default ∧
    expand_data ([1, 2, 3] : List Nat) [1, 3] [2, 3] (compute_strides [1, 3])
        = [1, 2, 3, 1, 2, 3] ∧
    expand_data ([1, 2, 3] : List Nat) [3, 1] [3, 2] (compute_strides [3, 1])
        = [1, 1, 2, 2, 3, 3] := by
  refine ⟨?_, expand_data_getD data _ _ _ idx h, by decide, by decide⟩
  simp [expand_data]

/-- Witness for C2: the full statement at concrete data `[1,2,3]`, original
shape `[1,3]`, broadcast shape `[2,3]` and multi-index `[1,2]`. -/
theorem expand_data_spec_witness :
    (expand_data ([1, 2, 3] : List Nat) [1, 3] [2, 3]
        (compute_strides [1, 3])).length = ([2, 3] : List Nat).prod ∧
    (expand_data ([1, 2, 3] : List Nat) [1, 3] [2, 3]
        (compute_strides [1, 3])).getD
        (dot [1, 2] (compute_strides [2, 3])) default
      = ([1, 2, 3] : List Nat).getD
          (sourceOffset [1, 2] [1, 3] (compute_strides [1, 3])) default ∧
    expand_data ([1, 2, 3] : List Nat) [1, 3] [2, 3] (compute_strides [1, 3])
        = [1, 2, 3, 1, 2, 3] ∧
    expand_data ([1, 2, 3] : List Nat) [3, 1] [3, 2] (compute_strides [3, 1])
        = [1, 1, 2, 2, 3, 3] :=
  expand_data_spec [1, 2, 3] [1, 3] [2, 3] (compute_strides [1, 3]) [1, 2]
    (by decide)

/-! ## Broadcasting failure lemmas -/

theorem broadcastDim_incompat (da db : Nat) (h1 : da ≠ db) (h2 : da ≠ 1)
    (h3 : db ≠ 1) : broadcastDim da db = none := by
  simp [broadcastDim, h1, h2, h3]

theorem broadcastPairs_none (l : List (Nat × Nat)) (p : Nat × Nat)
    (hp : p ∈ l) (hn : broadcastDim p.1 p.2 = none) :
    broadcastPairs l = none := by
  induction l with
  | nil => cases hp
  | cons q l ih =>
    rcases List.mem_cons.mp hp with h | h
    · subst h
      simp [broadcastPairs, hn]
    · cases hq : broadcastDim q.1 q.2 <;>
        simp [broadcastPairs, hq, ih h]

theorem determine_broadcast_shape_incompat (shape_a shape_b : List Nat)
    (h : ∃ p ∈ (padShape shape_a (max shape_a.length shape_b.length)).zip
          (padShape shape_b (max shape_a.length shape_b.length)),
        p.1 ≠ p.2 ∧ p.1 ≠ 1 ∧ p.2 ≠ 1) :
    determine_broadcast_shape shape_a shape_b
      = Except.error ⟨shape_a, shape_b⟩ := by
  obtain ⟨p, hp, h1, h2, h3⟩ := h
  simp only [determine_broadcast_shape]
  rw [broadcastPairs_none _ p hp (broadcastDim_incompat _ _ h1 h2 h3)]

/-- C3: for every pair of input shapes with some right-aligned dimension
pair unequal and with neither side 1, shape resolution fails, and
`CairoAdd::process` then panics with an error naming both offending
shapes, without invoking the external runner. -/
theorem process_incompatible_shapes {F T : Type} [Inhabited F]
    (run : CairoRunnerConfig → PathBuf → SerializedInputs F → Bool →
      Except String T)
    (self : CairoAdd) (data_a data_b : List F) (shape_a shape_b : List Nat)
    (h : ∃ p ∈ (padShape shape_a (max shape_a.length shape_b.length)).zip
          (padShape shape_b (max shape_a.length shape_b.length)),
        p.1 ≠ p.2 ∧ p.1 ≠ 1 ∧ p.2 ≠ 1) :
    determine_broadcast_shape shape_a shape_b
        = Except.error ⟨shape_a, shape_b⟩ ∧
    CairoAdd.process run self [(some data_a, shape_a), (some data_b, shape_b)]
        = (Outcome.panic (.broadcast shape_a shape_b), []) := by
  have hd := determine_broadcast_shape_incompat shape_a shape_b h
  refine ⟨hd, ?_⟩
  simp [CairoAdd.process, hd]

/-- Witness for C3 at the concrete shapes `[2]` and `[3]`. -/
theorem process_incompatible_shapes_witness :
    determine_broadcast_shape [2] [3] = Except.error ⟨[2], [3]⟩ ∧
    CairoAdd.process (F := Nat) (T := Nat) (fun _ _ _ _ => Except.ok 0)
        ⟨"p", ⟨0⟩⟩ [(some [5, 6], [2]), (some [7, 8, 9], [3])]
      = (Outcome.panic (.broadcast [2] [3]), []) :=
  process_incompatible_shapes (fun _ _ _ _ => Except.ok 0) ⟨"p", ⟨0⟩⟩
    [5, 6] [7, 8, 9] [2] [3] (by decide)

/-- C4: every `CairoAdd::process` invocation with a number of input
tensors other than exactly two panics with the arity message, with no
runner invocation having taken place. -/
theorem process_arity {F T : Type} [Inhabited F]
    (run : CairoRunnerConfig → PathBuf → SerializedInputs F → Bool →
      Except String T)
    (self : CairoAdd) (tensors : List (Option (List F) × List Nat))
    (h : tensors.length ≠ 2) :
    CairoAdd.process run self tensors = (Outcome.panic .arity, []) := by
  rcases tensors with _ | ⟨t1, _ | ⟨t2, _ | ⟨t3, rest⟩⟩⟩
  · rfl
  · rfl
  · exact absurd rfl h
  · rfl

/-- Witness for C4 at the concrete empty tensor list. -/
theorem process_arity_witness :
    CairoAdd.process (F := Nat) (T := Nat) (fun _ _ _ _ => Except.ok 0)
        ⟨"p", ⟨0⟩⟩ [] = (Outcome.panic .arity, []) :=
  process_arity (fun _ _ _ _ => Except.ok 0) ⟨"p", ⟨0⟩⟩ [] (by decide)

/-- C9: in every `CairoAdd::process` invocation the external runner is
invoked at most once; when the single invocation happened, a runner error
is propagated as a fatal panic carrying the runner's diagnostic (no
retry), and a runner success is returned unchanged as the operator's only
result. -/
theorem process_runner_once {F T : Type} [Inhabited F]
    (run : CairoRunnerConfig → PathBuf → SerializedInputs F → Bool →
      Except String T)
    (self : CairoAdd) (tensors : List (Option (List F) × List Nat)) :
    (CairoAdd.process run self tensors).2.length ≤ 1 ∧
    ∀ inputs, (CairoAdd.process run self tensors).2 = [inputs] →
      (∀ e, run self.runner_config self.sierra_file inputs false
          = Except.error e →
        (CairoAdd.process run self tensors).1
          = Outcome.panic (.cairoError e)) ∧
      (∀ t, run self.runner_config self.sierra_file inputs false
          = Except.ok t →
        (CairoAdd.process run self tensors).1 = Outcome.ok [t]) := by
  rcases tensors with _ | ⟨⟨ta, shape_a⟩, _ | ⟨⟨tb, shape_b⟩, _ | ⟨t3, rest⟩⟩⟩
  · exact ⟨by simp [CairoAdd.process], by simp [CairoAdd.process]⟩
  · exact ⟨by simp [CairoAdd.process], by simp [CairoAdd.process]⟩
  · cases ta with
    | none => exact ⟨by simp [CairoAdd.process], by simp [CairoAdd.process]⟩
    | some data_a =>
      cases tb with
      | none => exact ⟨by simp [CairoAdd.process], by simp [CairoAdd.process]⟩
      | some data_b =>
        cases hd : determine_broadcast_shape shape_a shape_b with
        | error e =>
          exact ⟨by simp [CairoAdd.process, hd], by simp [CairoAdd.process, hd]⟩
        | ok broadcast_shape =>
          cases hr : run self.runner_config self.sierra_file
              (serialize_inputs_binary_op
                (expand_data data_a shape_a broadcast_shape
                  (compute_strides shape_a))
                (expand_data data_b shape_b broadcast_shape
                  (compute_strides shape_b))) false with
          | ok t0 =>
            constructor
            · simp [CairoAdd.process, hd, hr]
            · intro inputs hin
              simp only [CairoAdd.process, hd, hr] at hin
              rw [List.cons.injEq] at hin
              obtain ⟨hin, -⟩ := hin
              subst hin
              constructor
              · intro e he
                rw [hr] at he
                cases he
              · intro t ht
                rw [hr] at ht
                cases ht
                simp [CairoAdd.process, hd, hr]
          | error e0 =>
            constructor
            · simp [CairoAdd.process, hd, hr]
            · intro inputs hin
              simp only [CairoAdd.process, hd, hr] at hin
              rw [List.cons.injEq] at hin
              obtain ⟨hin, -⟩ := hin
              subst hin
              constructor
              · intro e he
                rw [hr] at he
                cases he
                simp [CairoAdd.process, hd, hr]
              · intro t ht
                rw [hr] at ht
                cases ht
  · exact ⟨by simp [CairoAdd.process], by simp [CairoAdd.process]⟩

/-- Witness for C9 at a concrete two-tensor invocation with an
always-succeeding runner. -/
theorem process_runner_once_witness :
    (CairoAdd.process (F := Nat) (T := Nat) (fun _ _ _ _ => Except.ok 42)
        ⟨"p", ⟨0⟩⟩ [(some [1, 2], [2]), (some [3, 4], [2])]).2.length ≤ 1 ∧
    (CairoAdd.process (F := Nat) (T := Nat) (fun _ _ _ _ => Except.ok 42)
        ⟨"p", ⟨0⟩⟩ [(some [1, 2], [2]), (some [3, 4], [2])]).1
      = Outcome.ok [42] := by
  have h := process_runner_once (F := Nat) (T := Nat)
    (fun _ _ _ _ => Except.ok 42) ⟨"p", ⟨0⟩⟩
    [(some [1, 2], [2]), (some [3, 4], [2])]
  exact ⟨h.1, (h.2 ⟨[1, 2], [3, 4]⟩ (by decide)).2 42 rfl⟩

/-! ## Lowering-pass lemmas -/

theorem compileNodes_ok_cons (fs_exists : PathBuf → Bool)
    (cfg : CairoRunnerConfig) (i : Nat) (op : Op)
    (tl ns2 : List (Nat × Op))
    (h : compileNodes fs_exists cfg ((i, op) :: tl) = Outcome.ok ns2) :
    ∃ op2 tl2, compileNode fs_exists cfg op = Outcome.ok op2 ∧
      compileNodes fs_exists cfg tl = Outcome.ok tl2 ∧
      ns2 = (i, op2) :: tl2 := by
  cases hc : compileNode fs_exists cfg op with
  | panic m => simp [compileNodes, hc] at h
  | ok op2 =>
    cases hr : compileNodes fs_exists cfg tl with
    | panic m => simp [compileNodes, hc, hr] at h
    | ok tl2 =>
      refine ⟨op2, tl2, rfl, rfl, ?_⟩
      simp only [compileNodes, hc, hr] at h
      cases h
      rfl

theorem compileNodes_ok_length (fs_exists : PathBuf → Bool)
    (cfg : CairoRunnerConfig) (ns ns2 : List (Nat × Op))
    (h : compileNodes fs_exists cfg ns = Outcome.ok ns2) :
    ns2.length = ns.length := by
  induction ns generalizing ns2 with
  | nil =>
    simp only [compileNodes] at h
    cases h
    rfl
  | cons hd tl ih =>
    obtain ⟨i, op⟩ := hd
    obtain ⟨op2, tl2, hc, hr, rfl⟩ :=
      compileNodes_ok_cons fs_exists cfg i op tl ns2 h
    simp [ih tl2 hr]

theorem compileNodes_ok_get (fs_exists : PathBuf → Bool)
    (cfg : CairoRunnerConfig) (ns ns2 : List (Nat × Op))
    (h : compileNodes fs_exists cfg ns = Outcome.ok ns2)
    (k : Nat) (i : Nat) (op : Op) (hk : ns.get? k = some (i, op)) :
    ∃ op2, ns2.get? k = some (i, op2) ∧
      compileNode fs_exists cfg op = Outcome.ok op2 := by
  induction ns generalizing ns2 k with
  | nil => cases hk
  | cons hd tl ih =>
    obtain ⟨j, op0⟩ := hd
    obtain ⟨op2, tl2, hc, hr, rfl⟩ :=
      compileNodes_ok_cons fs_exists cfg j op0 tl ns2 h
    cases k with
    | zero =>
      simp only [List.get?] at hk
      cases hk
      exact ⟨op2, rfl, hc⟩
    | succ k =>
      simp only [List.get?] at hk ⊢
      exact ih tl2 hr k hk

theorem compileNode_add_ok (fs_exists : PathBuf → Bool)
    (cfg : CairoRunnerConfig) (op2 : Op)
    (h : compileNode fs_exists cfg Op.Add = Outcome.ok op2) :
    op2 = Op.CairoAddOp
      ⟨PathBuf.join COMPILED_CAIRO_PATH "add.sierra.json", cfg⟩ := by
  by_cases hf : fs_exists (PathBuf.join COMPILED_CAIRO_PATH "add.sierra.json")
      = true
  · simp only [compileNode, CairoAdd.new, hf, if_true] at h
    cases h
    rfl
  · simp only [compileNode, CairoAdd.new, hf, if_false,
      Bool.not_eq_true] at h
    rw [if_neg] at h
    · cases h
    · simp [hf]

/-- C5: whenever the lowering pass returns successfully, every node that
was of the `Add` kind at the start of the pass has had its payload
replaced in place by a `CairoAdd` operator bound to
`COMPILED_CAIRO_PATH/add.sierra.json` and the shared runner configuration,
with the node's identity, all edges, and the shape-tracker metadata on
them unchanged. -/
theorem compile_replaces_add (self : PrimitiveCompiler)
    (fs_exists : PathBuf → Bool) (graph : Graph)
    (res : Except CairoCompilerError Unit) (graph2 : Graph)
    (h : self.compile fs_exists graph = Outcome.ok (res, graph2)) :
    graph2.edges = graph.edges ∧
    graph2.nodes.length = graph.nodes.length ∧
    ∀ k i, graph.nodes.get? k = some (i, Op.Add) →
      graph2.nodes.get? k = some (i, Op.CairoAddOp
        ⟨PathBuf.join COMPILED_CAIRO_PATH "add.sierra.json",
          self.runner_config⟩) := by
  cases hn : compileNodes fs_exists self.runner_config graph.nodes with
  | panic m => simp [PrimitiveCompiler.compile, hn] at h
  | ok ns2 =>
    simp only [PrimitiveCompiler.compile, hn] at h
    cases h
    refine ⟨rfl, compileNodes_ok_length _ _ _ _ hn, ?_⟩
    intro k i hk
    obtain ⟨op2, hget, hc⟩ :=
      compileNodes_ok_get fs_exists self.runner_config graph.nodes ns2 hn
        k i Op.Add hk
    rw [compileNode_add_ok fs_exists self.runner_config op2 hc] at hget
    exact hget

/-- Witness for C5 at a concrete one-node graph with one edge. -/
theorem compile_replaces_add_witness :
    (⟨[(7, Op.CairoAddOp ⟨"./compiled_cairo/add.sierra.json", ⟨0⟩⟩)],
        [⟨0, 7, 0, [2]⟩]⟩ : Graph).edges
      = (⟨[(7, Op.Add)], [⟨0, 7, 0, [2]⟩]⟩ : Graph).edges ∧
    (⟨[(7, Op.CairoAddOp ⟨"./compiled_cairo/add.sierra.json", ⟨0⟩⟩)],
        [⟨0, 7, 0, [2]⟩]⟩ : Graph).nodes.length
      = (⟨[(7, Op.Add)], [⟨0, 7, 0, [2]⟩]⟩ : Graph).nodes.length ∧
    ∀ k i, (⟨[(7, Op.Add)], [⟨0, 7, 0, [2]⟩]⟩ : Graph).nodes.get? k
        = some (i, Op.Add) →
      (⟨[(7, Op.CairoAddOp ⟨"./compiled_cairo/add.sierra.json", ⟨0⟩⟩)],
          [⟨0, 7, 0, [2]⟩]⟩ : Graph).nodes.get? k
        = some (i, Op.CairoAddOp
            ⟨PathBuf.join COMPILED_CAIRO_PATH "add.sierra.json",
              (⟨⟨0⟩⟩ : PrimitiveCompiler).runner_config⟩) :=
  compile_replaces_add ⟨⟨0⟩⟩ (fun _ => true)
    ⟨[(7, Op.Add)], [⟨0, 7, 0, [2]⟩]⟩ (Except.ok ())
    ⟨[(7, Op.CairoAddOp ⟨"./compiled_cairo/add.sierra.json", ⟨0⟩⟩)],
      [⟨0, 7, 0, [2]⟩]⟩ rfl

theorem compileNode_unsupported_panics (fs_exists : PathBuf → Bool)
    (cfg : CairoRunnerConfig) (op : Op)
    (h : recognizedUnsupported op = true) :
    compileNode fs_exists cfg op = Outcome.panic .unimplemented := by
  cases op <;> first | rfl | simp [recognizedUnsupported] at h

theorem compileNodes_mem_panic (fs_exists : PathBuf → Bool)
    (cfg : CairoRunnerConfig) (ns : List (Nat × Op)) (i : Nat) (op : Op)
    (m0 : PanicMsg) (hmem : (i, op) ∈ ns)
    (hp : compileNode fs_exists cfg op = Outcome.panic m0) :
    ∃ m, compileNodes fs_exists cfg ns = Outcome.panic m := by
  induction ns with
  | nil => cases hmem
  | cons hd tl ih =>
    obtain ⟨j, op0⟩ := hd
    rcases List.mem_cons.mp hmem with heq | htl
    · cases heq
      exact ⟨m0, by simp [compileNodes, hp]⟩
    · cases hc : compileNode fs_exists cfg op0 with
      | panic m => exact ⟨m, by simp [compileNodes, hc]⟩
      | ok op2 =>
        obtain ⟨m, hm⟩ := ih htl
        exact ⟨m, by simp [compileNodes, hc, hm]⟩

/-- C6: every graph containing at least one node of a
recognized-but-unsupported operation kind (`Log2`, `Exp2`, `Sin`,
`Constant`, `Recip`, `Sqrt`, `Mul`, `Mod`, `LessThan`, `Contiguous`,
`SumReduce`, or `MaxReduce`) makes the lowering pass panic (abort) rather
than leave the node unconverted and continue. -/
theorem compile_unsupported_aborts (self : PrimitiveCompiler)
    (fs_exists : PathBuf → Bool) (graph : Graph) (i : Nat) (op : Op)
    (hmem : (i, op) ∈ graph.nodes) (hu : recognizedUnsupported op = true) :
    ∃ m, self.compile fs_exists graph = Outcome.panic m := by
  obtain ⟨m, hm⟩ := compileNodes_mem_panic fs_exists self.runner_config
    graph.nodes i op .unimplemented hmem
    (compileNode_unsupported_panics fs_exists self.runner_config op hu)
  exact ⟨m, by simp [PrimitiveCompiler.compile, hm]⟩

/-- Witness for C6 at a concrete one-node graph holding a `Log2` node. -/
theorem compile_unsupported_aborts_witness :
    ∃ m, PrimitiveCompiler.compile ⟨⟨0⟩⟩ (fun _ => true)
        ⟨[(0, Op.Log2)], []⟩ = Outcome.panic m :=
  compile_unsupported_aborts ⟨⟨0⟩⟩ (fun _ => true) ⟨[(0, Op.Log2)], []⟩
    0 Op.Log2 (List.mem_singleton.mpr rfl) rfl

theorem compileNode_unrecognized_id (fs_exists : PathBuf → Bool)
    (cfg : CairoRunnerConfig) (op : Op) (h : recognizedKind op = false) :
    compileNode fs_exists cfg op = Outcome.ok op := by
  cases op <;> first | rfl | simp [recognizedKind] at h

theorem compileNode_stable (fs_exists : PathBuf → Bool)
    (cfg : CairoRunnerConfig) (op op2 : Op)
    (h : compileNode fs_exists cfg op = Outcome.ok op2) :
    compileNode fs_exists cfg op2 = Outcome.ok op2 := by
  cases op with
  | Add =>
    rw [compileNode_add_ok fs_exists cfg op2 h]
    rfl
  | CairoAddOp c =>
    cases h
    rfl
  | Other t =>
    cases h
    rfl
  | Log2 => cases h
  | Exp2 => cases h
  | Sin => cases h
  | Constant => cases h
  | Recip => cases h
  | Sqrt => cases h
  | Mul => cases h
  | Mod => cases h
  | LessThan => cases h
  | Contiguous => cases h
  | SumReduce dim => cases h
  | MaxReduce dim => cases h

theorem compileNodes_stable (fs_exists : PathBuf → Bool)
    (cfg : CairoRunnerConfig) (ns ns2 : List (Nat × Op))
    (h : compileNodes fs_exists cfg ns = Outcome.ok ns2) :
    compileNodes fs_exists cfg ns2 = Outcome.ok ns2 := by
  induction ns generalizing ns2 with
  | nil =>
    simp only [compileNodes] at h
    cases h
    rfl
  | cons hd tl ih =>
    obtain ⟨i, op⟩ := hd
    obtain ⟨op2, tl2, hc, hr, rfl⟩ :=
      compileNodes_ok_cons fs_exists cfg i op tl ns2 h
    simp [compileNodes, compileNode_stable fs_exists cfg op op2 hc, ih tl2 hr]

/-- C7: the lowering pass leaves every node of an unrecognized kind —
including a node already converted to a `CairoAdd` operator by a previous
run — untouched, and a second run of the pass on a successfully lowered
graph is the identity, so no node is ever converted twice. -/
theorem compile_no_double_convert (cfg : CairoRunnerConfig)
    (fs_exists : PathBuf → Bool) :
    (∀ op, recognizedKind op = false →
      compileNode fs_exists cfg op = Outcome.ok op) ∧
    (∀ graph res graph2,
      PrimitiveCompiler.compile ⟨cfg⟩ fs_exists graph
          = Outcome.ok (res, graph2) →
      PrimitiveCompiler.compile ⟨cfg⟩ fs_exists graph2
          = Outcome.ok (Except.ok (), graph2)) := by
  constructor
  · exact fun op h => compileNode_unrecognized_id fs_exists cfg op h
  · intro graph res graph2 h
    cases hn : compileNodes fs_exists cfg graph.nodes with
    | panic m => simp [PrimitiveCompiler.compile, hn] at h
    | ok ns2 =>
      simp only [PrimitiveCompiler.compile, hn] at h
      cases h
      simp [PrimitiveCompiler.compile,
        compileNodes_stable fs_exists cfg graph.nodes ns2 hn]

/-- Witness for C7: a `CairoAdd` payload passes through unchanged, and a
second run on a concretely lowered one-node graph is the identity. -/
theorem compile_no_double_convert_witness :
    compileNode (fun _ => true) ⟨0⟩
        (Op.CairoAddOp ⟨"./compiled_cairo/add.sierra.json", ⟨0⟩⟩)
      = Outcome.ok
          (Op.CairoAddOp ⟨"./compiled_cairo/add.sierra.json", ⟨0⟩⟩) ∧
    PrimitiveCompiler.compile ⟨⟨0⟩⟩ (fun _ => true)
        ⟨[(7, Op.CairoAddOp ⟨"./compiled_cairo/add.sierra.json", ⟨0⟩⟩)], []⟩
      = Outcome.ok (Except.ok (),
          ⟨[(7, Op.CairoAddOp ⟨"./compiled_cairo/add.sierra.json", ⟨0⟩⟩)],
            []⟩) :=
  ⟨(compile_no_double_convert ⟨0⟩ (fun _ => true)).1
      (Op.CairoAddOp ⟨"./compiled_cairo/add.sierra.json", ⟨0⟩⟩) rfl,
    (compile_no_double_convert ⟨0⟩ (fun _ => true)).2
      ⟨[(7, Op.Add)], []⟩ (Except.ok ())
      ⟨[(7, Op.CairoAddOp ⟨"./compiled_cairo/add.sierra.json", ⟨0⟩⟩)], []⟩
      rfl⟩

/-- C8: constructing a `CairoAdd` with a compiled-program path that does
not exist on the filesystem panics immediately at construction time, and
consequently a lowering pass that reaches such a construction (a graph
with an `Add` node while the artifact is missing) aborts, so the error is
never deferred to an operator invocation during evaluation. -/
theorem new_missing_file_fatal (fs_exists : PathBuf → Bool) (p : PathBuf)
    (cfg : CairoRunnerConfig) (hp : fs_exists p = false) :
    CairoAdd.new fs_exists p cfg = Outcome.panic (.missingSierra p) ∧
    (p = PathBuf.join COMPILED_CAIRO_PATH "add.sierra.json" →
      ∀ graph i, (i, Op.Add) ∈ graph.nodes →
        ∃ m, PrimitiveCompiler.compile ⟨cfg⟩ fs_exists graph
          = Outcome.panic m) := by
  constructor
  · simp [CairoAdd.new, hp]
  · intro hpath graph i hmem
    subst hpath
    have hc : compileNode fs_exists cfg Op.Add
        = Outcome.panic (.missingSierra
            (PathBuf.join COMPILED_CAIRO_PATH "add.sierra.json")) := by
      simp [compileNode, CairoAdd.new, hp]
    obtain ⟨m, hm⟩ := compileNodes_mem_panic fs_exists cfg graph.nodes i
      Op.Add _ hmem hc
    exact ⟨m, by simp [PrimitiveCompiler.compile, hm]⟩

/-- Witness for C8 at a concrete missing path and a one-node `Add`
graph. -/
theorem new_missing_file_fatal_witness :
    CairoAdd.new (fun _ => false)
        (PathBuf.join COMPILED_CAIRO_PATH "add.sierra.json") ⟨0⟩
      = Outcome.panic (.missingSierra
          (PathBuf.join COMPILED_CAIRO_PATH "add.sierra.json")) ∧
    ∃ m, PrimitiveCompiler.compile ⟨⟨0⟩⟩ (fun _ => false)
        ⟨[(3, Op.Add)], []⟩ = Outcome.panic m := by
  have h := new_missing_file_fatal (fun _ => false)
    (PathBuf.join COMPILED_CAIRO_PATH "add.sierra.json") ⟨0⟩ rfl
  exact ⟨h.1, h.2 rfl ⟨[(3, Op.Add)], []⟩ 3 (List.mem_singleton.mpr rfl)⟩

/-- C10: whenever the lowering pass's `compile` returns rather than
panicking, its returned `Result` is `Ok(())`: the error case of the
declared `Result<(), CairoCompilerError>` type is never produced. -/
theorem compile_never_returns_err (self : PrimitiveCompiler)
    (fs_exists : PathBuf → Bool) (graph : Graph)
    (res : Except CairoCompilerError Unit) (graph2 : Graph)
    (h : self.compile fs_exists graph = Outcome.ok (res, graph2)) :
    res = Except.ok () := by
  cases hn : compileNodes fs_exists self.runner_config graph.nodes with
  | panic m => simp [PrimitiveCompiler.compile, hn] at h
  | ok ns2 =>
    simp only [PrimitiveCompiler.compile, hn] at h
    cases h
    rfl

/-- Witness for C10 at a concrete empty graph. -/
theorem compile_never_returns_err_witness :
    (Except.ok () : Except CairoCompilerError Unit) = Except.ok () :=
  compile_never_returns_err ⟨⟨0⟩⟩ (fun _ => true) ⟨[], []⟩ (Except.ok ())
    ⟨[], []⟩ rfl
